import Mathlib

/-!
Verification of the dbdm dotfile link manager (Rust sources `src/main.rs`,
`src/lib.rs`) against its natural-language specification.

The filesystem is shallowly embedded: a path is an absolute/relative flag plus
a list of components; the filesystem is a finite association list from paths to
entries (regular file with size, directory, or symlink with raw target).
OS primitives that the source calls (`symlink_metadata`, `read_link`,
`metadata`, `remove_file`, `remove_dir_all`, `rename`, `create_dir_all`,
`symlink`, `Path::exists`) are modelled as operations on this map;
`std::fs::canonicalize` is an external OS primitive and is passed in as an
abstract function `canon`.  Interactive stdin is a list of input lines.

The binary (`main.rs`) defines local copies of the mutation helpers that
differ from the library (`lib.rs`); both variants are embedded, the library
ones under their source names and the binary ones under a `main` prefix.
-/

namespace Dbdm

/-- A filesystem path: whether it is absolute, and its components. -/
structure FPath where
  absolute : Bool
  comps : List String
deriving DecidableEq

/-- `Path::is_relative`. -/
def FPath.isRelative (p : FPath) : Bool := !p.absolute

/-- `Path::join`: an absolute argument replaces the path, a relative one is appended. -/
def FPath.join (p q : FPath) : FPath :=
  if q.absolute then q else ⟨p.absolute, p.comps ++ q.comps⟩

/-- `Path::join` with a single-component relative path (`dir.join(name)`). -/
def FPath.push (p : FPath) (s : String) : FPath := ⟨p.absolute, p.comps ++ [s]⟩

/-- `Path::parent`: strip the last component; `None` when there is none. -/
def FPath.parent (p : FPath) : Option FPath :=
  match p.comps with
  | [] => none
  | _ :: _ => some ⟨p.absolute, p.comps.dropLast⟩

/-- `Path::file_name`: the last component. -/
def FPath.fileName (p : FPath) : Option String := p.comps.getLast?

/-- A filesystem entry, as seen by `symlink_metadata`: regular file (with its
size in bytes), directory, or symbolic link with its raw stored target. -/
inductive FsEntry where
  | file (size : Nat)
  | dir
  | symlink (target : FPath)
deriving DecidableEq

/-- The filesystem: a finite map from paths to entries. -/
abbrev Fs := List (FPath × FsEntry)

/-- `std::fs::symlink_metadata`: look the path up without following symlinks. -/
def lookupFs (fs : Fs) (p : FPath) : Option FsEntry :=
  (fs.find? (fun e => e.1 = p)).map (fun e => e.2)

/-- `meta.file_type().is_symlink()`. -/
def isSymlinkEntry : FsEntry → Bool
  | .symlink _ => true
  | _ => false

/-- `meta.is_file()` on a `symlink_metadata` result. -/
def isFileEntry : FsEntry → Bool
  | .file _ => true
  | _ => false

/-- `std::fs::read_link`: the raw target stored in a symlink entry. -/
def readLinkFs (fs : Fs) (p : FPath) : Option FPath :=
  match lookupFs fs p with
  | some (.symlink t) => some t
  | _ => none

/-- Helper from `lib.rs`/`main.rs` `resolve_symlink_target`: a relative symlink
target is interpreted relative to the symlink's parent directory. -/
def resolveSymlinkTarget (linkPath : FPath) (target : FPath) : FPath :=
  if target.isRelative then
    ((linkPath.parent).getD ⟨false, []⟩).join target
  else
    target

/-- `std::fs::metadata` (follows symlink chains), with fuel for chains/cycles;
a dangling or cyclic chain yields `none` as the OS call would error. -/
def statFollow (fs : Fs) : Nat → FPath → Option FsEntry
  | 0, _ => none
  | fuel + 1, p =>
    match lookupFs fs p with
    | some (.symlink t) => statFollow fs fuel (resolveSymlinkTarget p t)
    | e => e

/-- `std::fs::metadata` with enough fuel for any chain in the map. -/
def statFs (fs : Fs) (p : FPath) : Option FsEntry := statFollow fs (fs.length + 1) p

/-- `Path::exists`: `metadata` succeeds. -/
def existsFs (fs : Fs) (p : FPath) : Bool := (statFs fs p).isSome

/-- Whether `p` lies in the subtree rooted at `root` (including `root`). -/
def underPath (root p : FPath) : Bool :=
  root.absolute = p.absolute && p.comps.take root.comps.length = root.comps

/-- `std::fs::remove_file`: drop the single entry at `p`. -/
def removeEntry (fs : Fs) (p : FPath) : Fs := fs.filter (fun e => !(e.1 = p))

/-- `std::fs::remove_dir_all`: drop the whole subtree rooted at `p`. -/
def removeSubtree (fs : Fs) (p : FPath) : Fs := fs.filter (fun e => !(underPath p e.1))

/-- `std::os::unix::fs::symlink(from, to)`: fails if anything exists at `to`. -/
def symlinkFs (fs : Fs) (fromP toP : FPath) : Except String Fs :=
  match lookupFs fs toP with
  | some _ => Except.error ("AlreadyExists")
  | none => Except.ok ((toP, FsEntry.symlink fromP) :: fs)

/-- Rebase a path from the subtree at `src` to the subtree at `dst`. -/
def rebasePath (src dst p : FPath) : FPath :=
  ⟨dst.absolute, dst.comps ++ p.comps.drop src.comps.length⟩

/-- `std::fs::rename(src, dst)`: the source must exist; its subtree moves to
`dst`, overwriting whatever was there. -/
def renameFs (fs : Fs) (src dst : FPath) : Except String Fs :=
  match lookupFs fs src with
  | none => Except.error ("NotFound")
  | some _ =>
    Except.ok (fs.filterMap (fun e =>
      if underPath src e.1 then some (rebasePath src dst e.1, e.2)
      else if underPath dst e.1 then none
      else some e))

/-- The chain of ancestor paths of `p`, from the root prefix down to `p`. -/
def dirChain (p : FPath) : List FPath :=
  (List.range (p.comps.length + 1)).map (fun i => ⟨p.absolute, p.comps.take i⟩)

/-- `std::fs::create_dir_all`: create the directory and all missing ancestors;
fails when a non-directory entry occupies any of them. -/
def createDirAll (fs : Fs) (p : FPath) : Except String Fs :=
  if (dirChain p).all (fun q =>
      match lookupFs fs q with
      | some (.file _) => false
      | some (.symlink _) => false
      | _ => true) then
    Except.ok ((((dirChain p).filter (fun q => (lookupFs fs q).isNone)).map
      (fun q => (q, FsEntry.dir))) ++ fs)
  else
    Except.error ("CreateDirFailed")

/-- `lib.rs` `canonicalize_or_fallback`: `std::fs::canonicalize` (the external
OS primitive `canon`), falling back to the input path on error. -/
def canonicalizeOrFallback (canon : FPath → Option FPath) (p : FPath) : FPath :=
  (canon p).getD p

/-- `lib.rs` `resolve_link_destination`: decide the concrete path the symlink
is created at, from the type of `from` (following symlinks) and of `to`. -/
def resolveLinkDestination (fs : Fs) (fromP toP : FPath) : Except String FPath :=
  match statFs fs fromP with
  | none => Except.error ("NotFound")
  | some fromMeta =>
    let toMeta := lookupFs fs toP
    if fromMeta = FsEntry.dir then
      match toMeta with
      | some m =>
        if isFileEntry m then
          Except.error ("destination is file for directory source")
        else
          Except.ok toP
      | none => Except.ok toP
    else
      match toMeta with
      | some FsEntry.dir =>
        match fromP.fileName with
        | none => Except.error ("source has no basename")
        | some name => Except.ok (toP.push name)
      | _ => Except.ok toP

/-- `lib.rs` `remove_existing`: a missing path is not an error; a symlink or
regular file is unlinked, a directory removed recursively. -/
def removeExisting (fs : Fs) (p : FPath) : Except String Fs :=
  match lookupFs fs p with
  | none => Except.ok fs
  | some m =>
    if isSymlinkEntry m || isFileEntry m then
      Except.ok (removeEntry fs p)
    else
      Except.ok (removeSubtree fs p)

/-- `main.rs` `remove_existing`: the `symlink_metadata` error on a missing path
is propagated (unlike the library version). -/
def mainRemoveExisting (fs : Fs) (p : FPath) : Except String Fs :=
  match lookupFs fs p with
  | none => Except.error ("NotFound")
  | some m =>
    if isSymlinkEntry m || isFileEntry m then
      Except.ok (removeEntry fs p)
    else
      Except.ok (removeSubtree fs p)

/-- The backup name tried at step `k` of `unique_backup_path`:
`dir/base` first, then `dir/base.1`, `dir/base.2`, … -/
def bakCandidate (dir : FPath) (base : String) (k : Nat) : FPath :=
  if k = 0 then dir.push base else dir.push (base ++ "." ++ Nat.repr k)

/-- The `while path.exists()` loop of `unique_backup_path`, with fuel; the fuel
`fs.length + 1` always suffices, as the number of existing paths is finite. -/
def uniqueBackupGo (fs : Fs) (dir : FPath) (base : String) :
    Nat → Nat → FPath → FPath
  | _, 0, path => path
  | counter, fuel + 1, path =>
    if existsFs fs path then
      uniqueBackupGo fs dir base (counter + 1) fuel
        (dir.push (base ++ "." ++ Nat.repr counter))
    else path

/-- `unique_backup_path` (identical in `lib.rs` and `main.rs`): first free name
among `dir/<name>.bak.dbdm`, `dir/<name>.bak.dbdm.1`, `dir/<name>.bak.dbdm.2`, … -/
def uniqueBackupPath (fs : Fs) (dir : FPath) (name : String) : FPath :=
  let base := name ++ ".bak.dbdm"
  uniqueBackupGo fs dir base 1 (fs.length + 1) (dir.push base)

/-- `lib.rs` `replace_link`: resolve the destination, clear it, link there;
each `?` of the source is an explicit error propagation. -/
def libReplaceLink (fs : Fs) (fromP toP : FPath) : Except String Fs :=
  match resolveLinkDestination fs fromP toP with
  | Except.error e => Except.error e
  | Except.ok dest =>
    match removeExisting fs dest with
    | Except.error e => Except.error e
    | Except.ok fs1 => symlinkFs fs1 fromP dest

/-- The backup directory choice shared by both `backup_and_replace` versions:
`from` itself when `from` is a directory, else its parent (or `from`). -/
def backupDirFor (fs : Fs) (fromP : FPath) : FPath :=
  match statFs fs fromP with
  | some FsEntry.dir => fromP
  | _ => (fromP.parent).getD fromP

/-- `lib.rs` `backup_and_replace`: resolve the destination, move it to a
uniquely named backup under the backup directory, then link at the resolved
destination. -/
def libBackupAndReplace (fs : Fs) (fromP toP : FPath) : Except String Fs :=
  match resolveLinkDestination fs fromP toP with
  | Except.error e => Except.error e
  | Except.ok dest =>
    match createDirAll fs (backupDirFor fs fromP) with
    | Except.error e => Except.error e
    | Except.ok fs1 =>
      match renameFs fs1 dest
          (uniqueBackupPath fs1 (backupDirFor fs fromP) ((dest.fileName).getD ("backup"))) with
      | Except.error e => Except.error e
      | Except.ok fs2 => symlinkFs fs2 fromP dest

/-- `main.rs` `replace_link`: clears and links at `to` directly, without the
destination-resolution step of the library version. -/
def mainReplaceLink (fs : Fs) (fromP toP : FPath) : Except String Fs :=
  match mainRemoveExisting fs toP with
  | Except.error e => Except.error e
  | Except.ok fs1 => symlinkFs fs1 fromP toP

/-- `main.rs` `backup_and_replace`: like the library version but without the
destination-resolution step; backup naming and the rename use `to` directly. -/
def mainBackupAndReplace (fs : Fs) (fromP toP : FPath) : Except String Fs :=
  match createDirAll fs (backupDirFor fs fromP) with
  | Except.error e => Except.error e
  | Except.ok fs1 =>
    match renameFs fs1 toP
        (uniqueBackupPath fs1 (backupDirFor fs fromP) ((toP.fileName).getD ("backup"))) with
    | Except.error e => Except.error e
    | Except.ok fs2 => symlinkFs fs2 fromP toP

/-- The `SyncAction` enum of `main.rs`. -/
inductive SyncAction where
  | ignore
  | replace
  | backupReplace
  | skip
  | pendingAct
deriving DecidableEq

/-- The `PlanItem` struct of `main.rs`. -/
structure PlanItem where
  fromP : FPath
  toP : FPath
  action : SyncAction
  reason : Option String
deriving DecidableEq

/-- A declared link from the parsed config: `link = <from> <to>`. -/
structure Link where
  fromP : FPath
  toP : FPath
deriving DecidableEq

/-- The shared tail of the classification in `sync`: an existing destination
that is not an already-correct symlink becomes `Replace` when forced, else
`Pending`; the returned flag records whether the item joins `pending_indices`. -/
def classifyFallthrough (force : Bool) (link : Link) : PlanItem × Bool :=
  if force then
    (⟨link.fromP, link.toP, SyncAction.replace, none⟩, false)
  else
    (⟨link.fromP, link.toP, SyncAction.pendingAct, none⟩, true)

/-- The per-link classification in the first loop of `sync` (`main.rs`):
a destination without readable metadata is skipped; a symlink whose resolved,
canonicalized target equals the canonicalized `from` is ignored; anything else
falls through to force/pending handling. -/
def classifyLink (fs : Fs) (canon : FPath → Option FPath) (force : Bool)
    (link : Link) : PlanItem × Bool :=
  match lookupFs fs link.toP with
  | some meta =>
    if isSymlinkEntry meta then
      let target := (readLinkFs fs link.toP).getD link.toP
      let fromFull := canonicalizeOrFallback canon link.fromP
      let targetFull :=
        canonicalizeOrFallback canon (resolveSymlinkTarget link.toP target)
      if targetFull = fromFull then
        (⟨link.fromP, link.toP, SyncAction.ignore, none⟩, false)
      else
        classifyFallthrough force link
    else
      classifyFallthrough force link
  | none =>
    (⟨link.fromP, link.toP, SyncAction.skip, some ("path does not exist")⟩, false)

/-- The first loop of `sync`: build the plan and the `pending_indices` list. -/
def buildPlanGo (fs : Fs) (canon : FPath → Option FPath) (force : Bool) :
    List Link → List PlanItem → List Nat → List PlanItem × List Nat
  | [], plan, pend => (plan, pend)
  | link :: rest, plan, pend =>
    let r := classifyLink fs canon force link
    buildPlanGo fs canon force rest (plan ++ [r.1])
      (if r.2 then pend ++ [plan.length] else pend)

/-- The classification phase of `sync` over the whole config. -/
def buildPlan (fs : Fs) (canon : FPath → Option FPath) (force : Bool)
    (links : List Link) : List PlanItem × List Nat :=
  buildPlanGo fs canon force links [] []

/-- ASCII whitespace, the relevant fragment of Rust `char::is_whitespace`. -/
def isWsChar (c : Char) : Bool :=
  c = ' ' ∨ c = '\t' ∨ c = '\n' ∨ c = '\r'

/-- Rust `str::trim`: strip whitespace from both ends. -/
def trimStr (s : String) : String :=
  ⟨((s.data.dropWhile isWsChar).reverse.dropWhile isWsChar).reverse⟩

/-- Rust `str::to_lowercase` on the ASCII inputs the prompt cares about. -/
def toLowerStr (s : String) : String := ⟨s.data.map Char.toLower⟩

/-- One parse attempt of `prompt_action`: trim, lowercase, match. -/
def parseChoice (input : String) : Option SyncAction :=
  let choice := toLowerStr (trimStr input)
  if choice = "r" ∨ choice = "replace" then some SyncAction.replace
  else if choice = "b" ∨ choice = "backup" then some SyncAction.backupReplace
  else if choice = "s" ∨ choice = "skip" then some SyncAction.skip
  else none

/-- `prompt_action`: keep reading lines until one parses; consuming the whole
input without a valid choice is the loop never returning, modelled as `none`. -/
def promptAction : List String → Option (SyncAction × List String)
  | [] => none
  | line :: rest =>
    match parseChoice line with
    | some a => some (a, rest)
    | none => promptAction rest

/-- `plan[idx].action = action` on the plan list (out of range is a no-op;
the source only produces in-range indices). -/
def setAction (plan : List PlanItem) (idx : Nat) (a : SyncAction) : List PlanItem :=
  match plan[idx]? with
  | some it => plan.set idx ⟨it.fromP, it.toP, a, it.reason⟩
  | none => plan

/-- The conflict-resolution loop of `sync`: each index of `pending_indices`
receives the action chosen by `prompt_action`, consuming stdin left to right;
`none` when the prompt loop never returns on some item. -/
def resolveConflicts :
    List PlanItem → List Nat → List String → Option (List PlanItem × List String)
  | plan, [], stdin => some (plan, stdin)
  | plan, idx :: rest, stdin =>
    match promptAction stdin with
    | none => none
    | some (a, stdin') => resolveConflicts (setAction plan idx a) rest stdin'

/-- `confirm_proceed`: read one line; `y`/`yes` (trimmed, lowercased) confirms,
anything else — including end of input — declines. -/
def confirmProceed : List String → Bool × List String
  | [] => (false, [])
  | line :: rest =>
    (if toLowerStr (trimStr line) = "y" ∨ toLowerStr (trimStr line) = "yes" then true
     else false, rest)

/-- State threaded through the execution loop of `sync`. -/
structure ExecState where
  fs : Fs
  executed : List PlanItem
  errors : List (FPath × String)
deriving DecidableEq

/-- One iteration of the execution loop of `sync` (`main.rs`): `Ignore`/`Skip`
pass through; `Replace`/`BackupReplace` run the binary's local mutation helpers
and are downgraded to `Skip` with a reason on failure; `Pending` is skipped
entirely (`continue`) — no mutation, no error, not pushed to `executed`. -/
def executeItem (st : ExecState) (item : PlanItem) : ExecState :=
  match item.action with
  | SyncAction.ignore => ⟨st.fs, st.executed ++ [item], st.errors⟩
  | SyncAction.skip => ⟨st.fs, st.executed ++ [item], st.errors⟩
  | SyncAction.replace =>
    match mainReplaceLink st.fs item.fromP item.toP with
    | Except.ok fs' => ⟨fs', st.executed ++ [item], st.errors⟩
    | Except.error e =>
      ⟨st.fs,
       st.executed ++ [⟨item.fromP, item.toP, SyncAction.skip, some ("replace failed")⟩],
       st.errors ++ [(item.toP, e)]⟩
  | SyncAction.backupReplace =>
    match mainBackupAndReplace st.fs item.fromP item.toP with
    | Except.ok fs' => ⟨fs', st.executed ++ [item], st.errors⟩
    | Except.error e =>
      ⟨st.fs,
       st.executed ++ [⟨item.fromP, item.toP, SyncAction.skip, some ("backup+replace failed")⟩],
       st.errors ++ [(item.toP, e)]⟩
  | SyncAction.pendingAct => st

/-- The execution loop of `sync` over the whole plan. -/
def executePlan (fs : Fs) (plan : List PlanItem) : ExecState :=
  plan.foldl executeItem ⟨fs, [], []⟩

/-- The overall result of one `sync` run. -/
structure SyncResult where
  aborted : Bool
  fs : Fs
  executed : List PlanItem
  errors : List (FPath × String)
deriving DecidableEq

/-- The whole `sync` command (`main.rs`): classify, resolve conflicts through
the prompt, ask the single `Proceed? [y/N]` confirmation (unconditionally),
then either abort with no mutation or run the executor.  `none` models a
prompt loop that never returns. -/
def syncRun (fs : Fs) (canon : FPath → Option FPath) (force : Bool)
    (links : List Link) (stdin : List String) : Option SyncResult :=
  let built := buildPlan fs canon force links
  match resolveConflicts built.1 built.2 stdin with
  | none => none
  | some (plan, stdin') =>
    let c := confirmProceed stdin'
    if c.1 then
      let st := executePlan fs plan
      some ⟨false, st.fs, st.executed, st.errors⟩
    else
      some ⟨true, fs, [], []⟩

/-- Decimal value of a digit character produced by `Nat.digitChar`. -/
def digitVal (c : Char) : Nat :=
  if c = '0' then 0 else if c = '1' then 1 else if c = '2' then 2
  else if c = '3' then 3 else if c = '4' then 4 else if c = '5' then 5
  else if c = '6' then 6 else if c = '7' then 7 else if c = '8' then 8 else 9

/-- Decode a decimal digit string back into the number it denotes. -/
def decodeDigits (l : List Char) : Nat := l.foldl (fun a c => a * 10 + digitVal c) 0

/-- `digitVal` inverts `Nat.digitChar` on decimal digits. -/
theorem digitVal_digitChar (m : Nat) (h : m < 10) :
    digitVal (Nat.digitChar m) = m := by
  interval_cases m <;> rfl

/-- Folding the decoder from accumulator `a` scales `a` by `10 ^ length`. -/
theorem decodeDigits_foldl (l : List Char) (a : Nat) :
    l.foldl (fun a c => a * 10 + digitVal c) a = a * 10 ^ l.length + decodeDigits l := by
  induction l generalizing a with
  | nil => simp [decodeDigits]
  | cons c t ih =>
    have hd : decodeDigits (c :: t) = digitVal c * 10 ^ t.length + decodeDigits t := by
      have := ih (0 * 10 + digitVal c)
      simpa [decodeDigits] using this
    calc (c :: t).foldl (fun a c => a * 10 + digitVal c) a
        = t.foldl (fun a c => a * 10 + digitVal c) (a * 10 + digitVal c) := rfl
      _ = (a * 10 + digitVal c) * 10 ^ t.length + decodeDigits t := ih _
      _ = a * 10 ^ (c :: t).length + decodeDigits (c :: t) := by
          rw [hd]; simp [List.length_cons, pow_succ]; ring

/-- `Nat.toDigitsCore` in base 10 prepends the decimal digits of `n` when the
fuel dominates `n`. -/
theorem decodeDigits_toDigitsCore :
    ∀ (f n : Nat) (ds : List Char), n < 10 ^ f →
    decodeDigits (Nat.toDigitsCore 10 f n ds) = n * 10 ^ ds.length + decodeDigits ds := by
  intro f
  induction f with
  | zero =>
    intro n ds h
    have : n = 0 := by simpa using Nat.lt_one_iff.mp (by simpa using h)
    subst this
    simp [Nat.toDigitsCore]
  | succ f ih =>
    intro n ds h
    by_cases h0 : n / 10 = 0
    · have hn : n < 10 := by omega
      have hmod : n % 10 = n := Nat.mod_eq_of_lt hn
      have : Nat.toDigitsCore 10 (f + 1) n ds = Nat.digitChar (n % 10) :: ds := by
        simp [Nat.toDigitsCore, h0]
      rw [this]
      have hdv : digitVal (Nat.digitChar (n % 10)) = n := by
        rw [hmod]; exact digitVal_digitChar n hn
      have := decodeDigits_foldl ds (0 * 10 + digitVal (Nat.digitChar (n % 10)))
      calc decodeDigits (Nat.digitChar (n % 10) :: ds)
          = ds.foldl (fun a c => a * 10 + digitVal c)
              (0 * 10 + digitVal (Nat.digitChar (n % 10))) := rfl
        _ = (0 * 10 + digitVal (Nat.digitChar (n % 10))) * 10 ^ ds.length
              + decodeDigits ds := decodeDigits_foldl ds _
        _ = n * 10 ^ ds.length + decodeDigits ds := by rw [hdv]; ring
    · have hstep : Nat.toDigitsCore 10 (f + 1) n ds =
          Nat.toDigitsCore 10 f (n / 10) (Nat.digitChar (n % 10) :: ds) := by
        simp [Nat.toDigitsCore, h0]
      have hdiv : n / 10 < 10 ^ f := by
        have : n < 10 ^ f * 10 := by
          have := h
          rw [pow_succ] at this
          omega
        exact Nat.div_lt_of_lt_mul (by omega)
      rw [hstep, ih (n / 10) _ hdiv]
      have hdm : digitVal (Nat.digitChar (n % 10)) = n % 10 :=
        digitVal_digitChar (n % 10) (Nat.mod_lt n (by omega))
      have hcons : decodeDigits (Nat.digitChar (n % 10) :: ds) =
          (n % 10) * 10 ^ ds.length + decodeDigits ds := by
        have := decodeDigits_foldl ds (0 * 10 + digitVal (Nat.digitChar (n % 10)))
        calc decodeDigits (Nat.digitChar (n % 10) :: ds)
            = ds.foldl (fun a c => a * 10 + digitVal c)
                (0 * 10 + digitVal (Nat.digitChar (n % 10))) := rfl
          _ = (0 * 10 + digitVal (Nat.digitChar (n % 10))) * 10 ^ ds.length
                + decodeDigits ds := decodeDigits_foldl ds _
          _ = (n % 10) * 10 ^ ds.length + decodeDigits ds := by rw [hdm]; ring
      rw [hcons]
      have hsplit : n = 10 * (n / 10) + n % 10 := (Nat.div_add_mod n 10).symm ▸ by omega
      calc (n / 10) * 10 ^ (Nat.digitChar (n % 10) :: ds).length
            + ((n % 10) * 10 ^ ds.length + decodeDigits ds)
          = (n / 10) * (10 ^ ds.length * 10)
            + ((n % 10) * 10 ^ ds.length + decodeDigits ds) := by
            simp [List.length_cons, pow_succ]
        _ = (10 * (n / 10) + n % 10) * 10 ^ ds.length + decodeDigits ds := by ring
        _ = n * 10 ^ ds.length + decodeDigits ds := by rw [← hsplit]

/-- Decoding the decimal digit list of `n` recovers `n`. -/
theorem decodeDigits_toDigits (n : Nat) : decodeDigits (Nat.toDigits 10 n) = n := by
  have h1 : n < 10 ^ (n + 1) := by
    calc n < 2 ^ n := Nat.lt_two_pow n
      _ ≤ 10 ^ n := Nat.pow_le_pow_left (by omega) n
      _ ≤ 10 ^ (n + 1) := Nat.pow_le_pow_right (by omega) (Nat.le_succ n)
  have := decodeDigits_toDigitsCore (n + 1) n [] h1
  simpa [Nat.toDigits, decodeDigits] using this

/-- `Nat.repr` is injective. -/
theorem natRepr_injective : Function.Injective Nat.repr := by
  intro a b h
  have hdata : Nat.toDigits 10 a = Nat.toDigits 10 b := by
    have := congrArg String.data h
    simpa [Nat.repr, List.asString] using this
  have := congrArg decodeDigits hdata
  simpa [decodeDigits_toDigits] using this

/-- `FPath.push` is injective in the pushed component. -/
theorem push_inj (dir : FPath) (s t : String) (h : dir.push s = dir.push t) :
    s = t := by
  have h2 : dir.comps ++ [s] = dir.comps ++ [t] := congrArg FPath.comps h
  simpa using h2

/-- A string never equals itself extended by a dot and a suffix. -/
theorem ne_append_dot (base r : String) (h : base = base ++ "." ++ r) : False := by
  have h2 := congrArg String.length h
  rw [String.length_append, String.length_append] at h2
  have h3 : ("." : String).length = 1 := rfl
  omega

/-- Left cancellation for string append. -/
theorem string_append_cancel (s t u : String) (h : s ++ t = s ++ u) : t = u := by
  have h2 := congrArg String.data h
  rw [String.data_append, String.data_append] at h2
  have h3 := List.append_cancel_left h2
  cases t
  cases u
  simp only [String.data] at h3
  rw [h3]

/-- The candidate backup names are pairwise distinct. -/
theorem bakCandidate_inj (dir : FPath) (base : String) :
    Function.Injective (bakCandidate dir base) := by
  intro j k h
  unfold bakCandidate at h
  by_cases hj : j = 0 <;> by_cases hk : k = 0
  · omega
  · exfalso
    rw [if_pos hj, if_neg hk] at h
    exact ne_append_dot base (Nat.repr k) (push_inj dir _ _ h)
  · exfalso
    rw [if_neg hj, if_pos hk] at h
    exact ne_append_dot base (Nat.repr j) (push_inj dir _ _ h.symm)
  · rw [if_neg hj, if_neg hk] at h
    have h2 := push_inj dir _ _ h
    have h3 : Nat.repr j = Nat.repr k :=
      string_append_cancel (base ++ ".") (Nat.repr j) (Nat.repr k) h2
    exact natRepr_injective h3

/-- A successful lookup means the path is among the map's keys. -/
theorem lookupFs_some_mem_keys {fs : Fs} {p : FPath} {e : FsEntry}
    (h : lookupFs fs p = some e) : p ∈ fs.map Prod.fst := by
  unfold lookupFs at h
  cases hf : fs.find? (fun e => e.1 = p) with
  | none => rw [hf] at h; simp at h
  | some pr =>
    have hm : pr ∈ fs := List.mem_of_find?_eq_some hf
    have hp : pr.1 = p := by simpa using List.find?_some hf
    rw [← hp]
    exact List.mem_map_of_mem Prod.fst hm

/-- `statFollow` yields nothing when the path has no entry at all. -/
theorem statFollow_lookup_none (fs : Fs) (p : FPath) (f : Nat)
    (h : lookupFs fs p = none) : statFollow fs f p = none := by
  cases f with
  | zero => rfl
  | succ f => simp [statFollow, h]

/-- An existing path is among the map's keys. -/
theorem mem_keys_of_existsFs {fs : Fs} {p : FPath} (h : existsFs fs p = true) :
    p ∈ fs.map Prod.fst := by
  unfold existsFs statFs at h
  cases hl : lookupFs fs p with
  | none => rw [statFollow_lookup_none fs p _ hl] at h; simp at h
  | some e => exact lookupFs_some_mem_keys hl

/-- Pigeonhole: among the first `fs.length + 1` candidate backup names, at
least one does not exist on the filesystem. -/
theorem exists_free_bakCandidate (fs : Fs) (dir : FPath) (base : String) :
    ∃ m, m < fs.length + 1 ∧ existsFs fs (bakCandidate dir base m) = false := by
  by_contra hc
  push_neg at hc
  have hall : ∀ m, m < fs.length + 1 →
      existsFs fs (bakCandidate dir base m) = true := by
    intro m hm
    cases hb : existsFs fs (bakCandidate dir base m) with
    | false => exact absurd hb (hc m hm)
    | true => rfl
  have hsub : (Finset.range (fs.length + 1)).image (bakCandidate dir base) ⊆
      (fs.map Prod.fst).toFinset := by
    intro x hx
    rw [Finset.mem_image] at hx
    obtain ⟨m, hm, hx⟩ := hx
    rw [Finset.mem_range] at hm
    subst hx
    simpa [List.mem_toFinset] using mem_keys_of_existsFs (hall m hm)
  have h1 : ((Finset.range (fs.length + 1)).image (bakCandidate dir base)).card
      = fs.length + 1 := by
    rw [Finset.card_image_of_injective _ (bakCandidate_inj dir base), Finset.card_range]
  have h2 := Finset.card_le_card hsub
  have h3 : (fs.map Prod.fst).toFinset.card ≤ fs.length := by
    calc (fs.map Prod.fst).toFinset.card ≤ (fs.map Prod.fst).length :=
          (fs.map Prod.fst).toFinset_card_le
      _ = fs.length := List.length_map _ _
  omega

/-- The loop of `unique_backup_path` returns the first free candidate, as long
as some free candidate lies within the fuel. -/
theorem uniqueBackupGo_first_free (fs : Fs) (dir : FPath) (base : String) :
    ∀ (f c : Nat),
      (∃ m, m < f ∧ existsFs fs (bakCandidate dir base (c + m)) = false) →
      ∃ k, uniqueBackupGo fs dir base (c + 1) f (bakCandidate dir base c) =
             bakCandidate dir base (c + k) ∧
           existsFs fs (bakCandidate dir base (c + k)) = false ∧
           ∀ j, j < k → existsFs fs (bakCandidate dir base (c + j)) = true := by
  intro f
  induction f with
  | zero =>
    intro c h
    obtain ⟨m, hm, _⟩ := h
    omega
  | succ f ih =>
    intro c h
    by_cases hex : existsFs fs (bakCandidate dir base c) = true
    · have hcand : dir.push (base ++ "." ++ Nat.repr (c + 1)) =
          bakCandidate dir base (c + 1) := by
        simp [bakCandidate]
      have hstep : uniqueBackupGo fs dir base (c + 1) (f + 1) (bakCandidate dir base c) =
          uniqueBackupGo fs dir base (c + 2) f (bakCandidate dir base (c + 1)) := by
        rw [uniqueBackupGo, if_pos hex, hcand]
      obtain ⟨m, hm, hfree⟩ := h
      have hm0 : m ≠ 0 := by
        intro h0
        subst h0
        rw [Nat.add_zero] at hfree
        rw [hex] at hfree
        exact Bool.noConfusion hfree
      have hh : ∃ m2, m2 < f ∧
          existsFs fs (bakCandidate dir base ((c + 1) + m2)) = false := by
        refine ⟨m - 1, by omega, ?_⟩
        have harith : (c + 1) + (m - 1) = c + m := by omega
        rw [harith]
        exact hfree
      obtain ⟨k2, hgo, hfree2, hall⟩ := ih (c + 1) hh
      refine ⟨k2 + 1, ?_, ?_, ?_⟩
      · rw [hstep]
        have harith : (c + 1) + k2 = c + (k2 + 1) := by omega
        rw [← harith]
        exact hgo
      · have harith : (c + 1) + k2 = c + (k2 + 1) := by omega
        rw [← harith]
        exact hfree2
      · intro j hj
        cases j with
        | zero => simpa using hex
        | succ j2 =>
          have harith : c + (j2 + 1) = (c + 1) + j2 := by omega
          rw [harith]
          exact hall j2 (by omega)
    · have hfalse : existsFs fs (bakCandidate dir base c) = false := by
        cases hb : existsFs fs (bakCandidate dir base c) with
        | false => rfl
        | true => exact absurd hb hex
      refine ⟨0, ?_, by simpa using hfalse, by intro j hj; omega⟩
      rw [uniqueBackupGo, if_neg (by rw [hfalse]; exact Bool.false_ne_true)]
      rw [Nat.add_zero]

/-- `prompt_action` parses only `replace`, `backup` or `skip`; never `Pending`. -/
theorem parseChoice_ne_pending (s : String) (a : SyncAction)
    (h : parseChoice s = some a) : a ≠ SyncAction.pendingAct := by
  simp only [parseChoice] at h
  split_ifs at h
  · injection h with h2; subst h2; intro hc; exact SyncAction.noConfusion hc
  · injection h with h2; subst h2; intro hc; exact SyncAction.noConfusion hc
  · injection h with h2; subst h2; intro hc; exact SyncAction.noConfusion hc

/-- A decision returned by the `prompt_action` loop is never `Pending`. -/
theorem promptAction_ne_pending :
    ∀ (stdin : List String) (a : SyncAction) (rest : List String),
    promptAction stdin = some (a, rest) → a ≠ SyncAction.pendingAct := by
  intro stdin
  induction stdin with
  | nil => intro a rest h; exact Option.noConfusion h
  | cons line t ih =>
    intro a rest h
    unfold promptAction at h
    cases hp : parseChoice line with
    | some b =>
      rw [hp] at h
      injection h with h2
      have hb : b = a := congrArg Prod.fst h2
      rw [← hb]
      exact parseChoice_ne_pending line b hp
    | none =>
      rw [hp] at h
      exact ih a rest h

/-- When classification marks an item `Pending`, it also flags it for
`pending_indices`. -/
theorem classifyLink_pending_flag (fs : Fs) (canon : FPath → Option FPath)
    (force : Bool) (link : Link)
    (h : (classifyLink fs canon force link).1.action = SyncAction.pendingAct) :
    (classifyLink fs canon force link).2 = true := by
  cases hL : lookupFs fs link.toP with
  | none => simp [classifyLink, hL] at h
  | some meta =>
    simp only [classifyLink, classifyFallthrough, hL] at h ⊢
    split_ifs at h ⊢ <;> simp_all

/-- The classification loop lists every `Pending` position in
`pending_indices`. -/
theorem buildPlanGo_pending_mem (fs : Fs) (canon : FPath → Option FPath)
    (force : Bool) :
    ∀ (links : List Link) (plan : List PlanItem) (pend : List Nat),
      (∀ j it, plan[j]? = some it → it.action = SyncAction.pendingAct → j ∈ pend) →
      ∀ j it, (buildPlanGo fs canon force links plan pend).1[j]? = some it →
        it.action = SyncAction.pendingAct →
        j ∈ (buildPlanGo fs canon force links plan pend).2 := by
  intro links
  induction links with
  | nil => intro plan pend hinv j it hj hp; exact hinv j it hj hp
  | cons link rest ih =>
    intro plan pend hinv
    rw [buildPlanGo]
    apply ih
    intro j it hj hp
    by_cases hlt : j < plan.length
    · rw [List.getElem?_append_left hlt] at hj
      have hmem := hinv j it hj hp
      split
      · exact List.mem_append_left _ hmem
      · exact hmem
    · by_cases heq : j = plan.length
      · subst heq
        rw [List.getElem?_append_right (Nat.le_refl _)] at hj
        simp at hj
        have hflag : (classifyLink fs canon force link).2 = true := by
          apply classifyLink_pending_flag
          rw [hj]
          exact hp
        rw [hflag]
        simp
      · exfalso
        have hlen : (plan ++ [(classifyLink fs canon force link).1]).length ≤ j := by
          simp [List.length_append]
          omega
        rw [List.getElem?_eq_none hlen] at hj
        exact Option.noConfusion hj

/-- The conflict-resolution loop leaves no `Pending` item, provided every
`Pending` position is among the indices it visits. -/
theorem resolveConflicts_no_pending :
    ∀ (pend : List Nat) (plan : List PlanItem) (stdin stdin' : List String)
      (plan' : List PlanItem),
      (∀ j it, plan[j]? = some it → it.action = SyncAction.pendingAct → j ∈ pend) →
      resolveConflicts plan pend stdin = some (plan', stdin') →
      ∀ it ∈ plan', it.action ≠ SyncAction.pendingAct := by
  intro pend
  induction pend with
  | nil =>
    intro plan stdin stdin' plan' hinv h it hmem
    rw [resolveConflicts] at h
    injection h with h2
    have hplan : plan = plan' := congrArg Prod.fst h2
    subst hplan
    obtain ⟨j, hj⟩ := List.mem_iff_getElem?.mp hmem
    intro hp
    exact absurd (hinv j it hj hp) (List.not_mem_nil j)
  | cons idx rest ih =>
    intro plan stdin stdin' plan' hinv h it hmem
    rw [resolveConflicts] at h
    cases hpa : promptAction stdin with
    | none => rw [hpa] at h; exact Option.noConfusion h
    | some pr =>
      rw [hpa] at h
      have hne : pr.1 ≠ SyncAction.pendingAct :=
        promptAction_ne_pending stdin pr.1 pr.2 (by rw [hpa])
      apply ih (setAction plan idx pr.1) pr.2 stdin' plan' _ h it hmem
      intro j jt hj hp
      unfold setAction at hj
      cases hidx : plan[idx]? with
      | none =>
        rw [hidx] at hj
        have hji : j ≠ idx := by
          intro he
          subst he
          rw [hidx] at hj
          exact Option.noConfusion hj
        have := hinv j jt hj hp
        cases this with
        | head => exact absurd rfl hji
        | tail _ hmem2 => exact hmem2
      | some it0 =>
        rw [hidx] at hj
        by_cases hji : j = idx
        · subst hji
          have hlen : j < plan.length := (List.getElem?_eq_some_iff.mp hidx).1
          rw [List.getElem?_set_self hlen] at hj
          injection hj with hj2
          exfalso
          apply hne
          rw [← hj2] at hp
          exact hp
        · rw [List.getElem?_set_ne (fun he => hji he.symm)] at hj
          have := hinv j jt hj hp
          cases this with
          | head => exact absurd rfl hji
          | tail _ hmem2 => exact hmem2

/-- Whether a plan item still carries the transient `Pending` action. -/
def isPendingItem (it : PlanItem) : Bool := it.action = SyncAction.pendingAct

/-- A `Pending` item leaves the executor state untouched (`continue`). -/
theorem executeItem_pending (st : ExecState) (item : PlanItem)
    (h : item.action = SyncAction.pendingAct) : executeItem st item = st := by
  unfold executeItem
  rw [h]

/-- The executor state after the loop is unchanged by first dropping every
`Pending` item from the plan. -/
theorem foldl_executeItem_filter :
    ∀ (plan : List PlanItem) (st : ExecState),
    plan.foldl executeItem st =
    (plan.filter (fun it => !(isPendingItem it))).foldl executeItem st := by
  intro plan
  induction plan with
  | nil => intro st; rfl
  | cons item t ih =>
    intro st
    cases hp : isPendingItem item with
    | true =>
      have ha : item.action = SyncAction.pendingAct := by
        simpa [isPendingItem] using hp
      rw [List.foldl_cons, executeItem_pending st item ha, List.filter_cons,
        hp]
      simp only [Bool.not_true, if_neg]
      exact ih st
    | false =>
      rw [List.foldl_cons, List.filter_cons, hp]
      simp only [Bool.not_false, if_pos]
      rw [List.foldl_cons]
      exact ih (executeItem st item)

/-- Each executor step only appends non-`Pending` items to `executed`. -/
theorem executeItem_no_pending (st : ExecState) (item : PlanItem)
    (hst : ∀ it ∈ st.executed, it.action ≠ SyncAction.pendingAct) :
    ∀ it ∈ (executeItem st item).executed, it.action ≠ SyncAction.pendingAct := by
  intro it hmem
  unfold executeItem at hmem
  cases ha : item.action with
  | ignore =>
    rw [ha] at hmem
    rcases List.mem_append.mp hmem with h1 | h1
    · exact hst it h1
    · have he : it = item := by simpa using h1
      rw [he, ha]
      intro hc
      exact SyncAction.noConfusion hc
  | skip =>
    rw [ha] at hmem
    rcases List.mem_append.mp hmem with h1 | h1
    · exact hst it h1
    · have he : it = item := by simpa using h1
      rw [he, ha]
      intro hc
      exact SyncAction.noConfusion hc
  | replace =>
    rw [ha] at hmem
    cases hm : mainReplaceLink st.fs item.fromP item.toP with
    | ok fs2 =>
      rw [hm] at hmem
      rcases List.mem_append.mp hmem with h1 | h1
      · exact hst it h1
      · have he : it = item := by simpa using h1
        rw [he, ha]
        intro hc
        exact SyncAction.noConfusion hc
    | error e =>
      rw [hm] at hmem
      rcases List.mem_append.mp hmem with h1 | h1
      · exact hst it h1
      · have he : it = ⟨item.fromP, item.toP, SyncAction.skip, some ("replace failed")⟩ := by
          simpa using h1
        rw [he]
        intro hc
        exact SyncAction.noConfusion hc
  | backupReplace =>
    rw [ha] at hmem
    cases hm : mainBackupAndReplace st.fs item.fromP item.toP with
    | ok fs2 =>
      rw [hm] at hmem
      rcases List.mem_append.mp hmem with h1 | h1
      · exact hst it h1
      · have he : it = item := by simpa using h1
        rw [he, ha]
        intro hc
        exact SyncAction.noConfusion hc
    | error e =>
      rw [hm] at hmem
      rcases List.mem_append.mp hmem with h1 | h1
      · exact hst it h1
      · have he : it = ⟨item.fromP, item.toP, SyncAction.skip, some ("backup+replace failed")⟩ := by
          simpa using h1
        rw [he]
        intro hc
        exact SyncAction.noConfusion hc
  | pendingAct =>
    rw [ha] at hmem
    exact hst it hmem

/-- No `Pending` item ever reaches the executed-outcome list. -/
theorem foldl_executeItem_no_pending :
    ∀ (plan : List PlanItem) (st : ExecState),
    (∀ it ∈ st.executed, it.action ≠ SyncAction.pendingAct) →
    ∀ it ∈ (plan.foldl executeItem st).executed, it.action ≠ SyncAction.pendingAct := by
  intro plan
  induction plan with
  | nil => intro st hst; exact hst
  | cons item t ih =>
    intro st hst
    rw [List.foldl_cons]
    exact ih (executeItem st item) (executeItem_no_pending st item hst)

/-- A successful `symlink` leaves a symlink entry at the link path. -/
theorem symlinkFs_ok_lookup {fs fs' : Fs} {fromP toP : FPath}
    (h : symlinkFs fs fromP toP = Except.ok fs') :
    lookupFs fs' toP = some (FsEntry.symlink fromP) := by
  unfold symlinkFs at h
  cases hL : lookupFs fs toP with
  | some e => rw [hL] at h; exact Except.noConfusion h
  | none =>
    rw [hL] at h
    injection h with h2
    rw [← h2]
    simp [lookupFs, List.find?]

/-- C1: the claim says a link whose destination metadata is unreadable (the
destination does not exist) is classified `Replace` with no prompt and the link
gets created.  The code does the opposite: the `Err` arm of `symlink_metadata`
in `sync` pushes `Skip` with reason "path does not exist", so no symlink is
ever created there.  This theorem evaluates the classification at any such
input, exhibiting the divergence. -/
theorem c1_missing_destination_is_skipped (fs : Fs) (canon : FPath → Option FPath)
    (force : Bool) (link : Link) (h : lookupFs fs link.toP = none) :
    classifyLink fs canon force link =
      (⟨link.fromP, link.toP, SyncAction.skip, some ("path does not exist")⟩, false) := by
  simp [classifyLink, h]

/-- Witness for C1: a concrete absent destination is classified `Skip`. -/
theorem c1_missing_destination_is_skipped_witness :
    lookupFs ([] : Fs) (⟨true, ["dst"]⟩ : FPath) = none ∧
    classifyLink ([] : Fs) (fun _ => none) false ⟨⟨true, ["src"]⟩, ⟨true, ["dst"]⟩⟩ =
      (⟨⟨true, ["src"]⟩, ⟨true, ["dst"]⟩, SyncAction.skip,
        some ("path does not exist")⟩, false) :=
  ⟨rfl, c1_missing_destination_is_skipped [] (fun _ => none) false
    ⟨⟨true, ["src"]⟩, ⟨true, ["dst"]⟩⟩ rfl⟩

/-- C2: the claim says an empty existing destination (for instance a zero-byte
file) is classified `Replace` with no prompt on a non-forced run.  The code has
no emptiness check at all: any existing non-symlink destination on a non-forced
run becomes `Pending` and joins `pending_indices`, so it is prompted for.  This
theorem evaluates the classification at a zero-byte-file destination. -/
theorem c2_empty_destination_still_prompts (fs : Fs) (canon : FPath → Option FPath)
    (link : Link) (h : lookupFs fs link.toP = some (FsEntry.file 0)) :
    classifyLink fs canon false link =
      (⟨link.fromP, link.toP, SyncAction.pendingAct, none⟩, true) := by
  simp [classifyLink, h, isSymlinkEntry, classifyFallthrough]

/-- Witness for C2: a concrete zero-byte destination is marked `Pending` and
flagged for prompting. -/
theorem c2_empty_destination_still_prompts_witness :
    lookupFs ([(⟨true, ["dst"]⟩, FsEntry.file 0)] : Fs) (⟨true, ["dst"]⟩ : FPath) =
      some (FsEntry.file 0) ∧
    classifyLink ([(⟨true, ["dst"]⟩, FsEntry.file 0)] : Fs) (fun _ => none) false
        ⟨⟨true, ["src"]⟩, ⟨true, ["dst"]⟩⟩ =
      (⟨⟨true, ["src"]⟩, ⟨true, ["dst"]⟩, SyncAction.pendingAct, none⟩, true) :=
  ⟨rfl, c2_empty_destination_still_prompts [(⟨true, ["dst"]⟩, FsEntry.file 0)]
    (fun _ => none) ⟨⟨true, ["src"]⟩, ⟨true, ["dst"]⟩⟩ rfl⟩

/-- C8 (amended): the library's `remove_existing` — the removal primitive used
by the library `replace_link` — returns `Ok` unchanged on a missing path; the
binary's local copy used by the executor propagates the error instead (see the
counterexample). -/
theorem c8_lib_remove_missing_is_ok (fs : Fs) (p : FPath)
    (h : lookupFs fs p = none) : removeExisting fs p = Except.ok fs := by
  simp [removeExisting, h]

/-- Witness for C8: removing a concrete missing path succeeds unchanged. -/
theorem c8_lib_remove_missing_is_ok_witness :
    lookupFs ([] : Fs) (⟨true, ["gone"]⟩ : FPath) = none ∧
    removeExisting ([] : Fs) ⟨true, ["gone"]⟩ = Except.ok ([] : Fs) :=
  ⟨rfl, c8_lib_remove_missing_is_ok [] ⟨true, ["gone"]⟩ rfl⟩

/-- C8 counterexample: `main.rs`'s own `remove_existing` — the one the `sync`
executor's `Replace` actually calls — errors on a missing path, and that error
becomes a reported `Replace` failure. -/
theorem c8_counterexample_main_remove_missing_errors :
    mainRemoveExisting ([] : Fs) ⟨true, ["gone"]⟩ = Except.error ("NotFound") ∧
    mainReplaceLink ([(⟨true, ["src"]⟩, FsEntry.file 1)] : Fs) ⟨true, ["src"]⟩
      ⟨true, ["gone"]⟩ = Except.error ("NotFound") :=
  ⟨rfl, rfl⟩

/-- C9: the claim says the `Proceed? [y/N]` confirmation is requested only on
non-forced runs with at least one prompted decision.  The code calls
`confirm_proceed` unconditionally: here a forced run with an empty
`pending_indices` still aborts on answer `n` (leaving the filesystem unchanged
and executing nothing) and proceeds on `y` — so the confirmation was consulted
on a forced run, contradicting the claim; the abort half of the claim (zero
mutations, filesystem unchanged) is visible in the first conjunct. -/
theorem c9_forced_run_still_asks_confirmation :
    syncRun [(⟨true, ["src"]⟩, FsEntry.file 1), (⟨true, ["dst"]⟩, FsEntry.file 3)]
        (fun _ => none) true [⟨⟨true, ["src"]⟩, ⟨true, ["dst"]⟩⟩] ["n"] =
      some ⟨true,
        [(⟨true, ["src"]⟩, FsEntry.file 1), (⟨true, ["dst"]⟩, FsEntry.file 3)],
        [], []⟩ ∧
    syncRun [(⟨true, ["src"]⟩, FsEntry.file 1), (⟨true, ["dst"]⟩, FsEntry.file 3)]
        (fun _ => none) true [⟨⟨true, ["src"]⟩, ⟨true, ["dst"]⟩⟩] ["y"] =
      some ⟨false,
        [(⟨true, ["dst"]⟩, FsEntry.symlink ⟨true, ["src"]⟩),
         (⟨true, ["src"]⟩, FsEntry.file 1)],
        [⟨⟨true, ["src"]⟩, ⟨true, ["dst"]⟩, SyncAction.replace, none⟩], []⟩ :=
  ⟨by decide, by decide⟩

/-- C4: classification assigns `Ignore` exactly when the destination currently
is a symlink whose stored target — made absolute relative to the symlink's
parent directory and then canonicalized (with the code's fallback on
canonicalization failure) — equals the equally canonicalized declared source. -/
theorem c4_ignore_iff_correct_symlink (fs : Fs) (canon : FPath → Option FPath)
    (force : Bool) (link : Link) :
    (classifyLink fs canon force link).1.action = SyncAction.ignore ↔
    ∃ t, lookupFs fs link.toP = some (FsEntry.symlink t) ∧
      canonicalizeOrFallback canon (resolveSymlinkTarget link.toP t) =
        canonicalizeOrFallback canon link.fromP := by
  constructor
  · intro h
    cases hL : lookupFs fs link.toP with
    | none => simp [classifyLink, hL] at h
    | some meta =>
      cases meta with
      | file sz =>
        exfalso
        have := h
        simp [classifyLink, hL, isSymlinkEntry, classifyFallthrough] at this
        cases force <;> simp_all
      | dir =>
        exfalso
        have := h
        simp [classifyLink, hL, isSymlinkEntry, classifyFallthrough] at this
        cases force <;> simp_all
      | symlink t =>
        refine ⟨t, hL ▸ rfl, ?_⟩
        have hr : readLinkFs fs link.toP = some t := by simp [readLinkFs, hL]
        by_cases h2 : canonicalizeOrFallback canon (resolveSymlinkTarget link.toP t) =
            canonicalizeOrFallback canon link.fromP
        · exact h2
        · exfalso
          have := h
          simp [classifyLink, hL, hr, isSymlinkEntry, classifyFallthrough, h2] at this
          cases force <;> simp_all
  · rintro ⟨t, hL, heq⟩
    have hr : readLinkFs fs link.toP = some t := by simp [readLinkFs, hL]
    simp [classifyLink, hL, hr, isSymlinkEntry, heq]

/-- C5 (amended): in the library, `replace_link` and `backup_and_replace` both
apply `resolve_link_destination`, so the symlink each creates on success sits
at the same resolved destination `d` (and the backup base name is drawn from
that same `d`); the binary's local copies do not apply the rule (see the
counterexample). -/
theorem c5_lib_mutations_use_resolved_destination (fs fs' : Fs)
    (fromP toP d : FPath)
    (hres : resolveLinkDestination fs fromP toP = Except.ok d) :
    (libReplaceLink fs fromP toP = Except.ok fs' →
      lookupFs fs' d = some (FsEntry.symlink fromP)) ∧
    (libBackupAndReplace fs fromP toP = Except.ok fs' →
      lookupFs fs' d = some (FsEntry.symlink fromP)) := by
  constructor
  · intro h
    unfold libReplaceLink at h
    simp only [hres] at h
    cases hre : removeExisting fs d with
    | error e => simp only [hre] at h; exact Except.noConfusion h
    | ok fs1 => simp only [hre] at h; exact symlinkFs_ok_lookup h
  · intro h
    unfold libBackupAndReplace at h
    simp only [hres] at h
    cases hc : createDirAll fs (backupDirFor fs fromP) with
    | error e => simp only [hc] at h; exact Except.noConfusion h
    | ok fs1 =>
      simp only [hc] at h
      cases hr : renameFs fs1 d
          (uniqueBackupPath fs1 (backupDirFor fs fromP) ((d.fileName).getD ("backup"))) with
      | error e => simp only [hr] at h; exact Except.noConfusion h
      | ok fs2 => simp only [hr] at h; exact symlinkFs_ok_lookup h

/-- Witness for C5: for a file source and an existing directory destination the
resolved destination is `to/<basename(from)>`, and the library
`backup_and_replace` indeed leaves its symlink there. -/
theorem c5_lib_mutations_use_resolved_destination_witness :
    lookupFs
      [(⟨true, ["d", "f"]⟩, FsEntry.symlink ⟨true, ["s", "f"]⟩),
       (⟨true, []⟩, FsEntry.dir), (⟨true, ["s"]⟩, FsEntry.dir),
       (⟨true, ["s", "f"]⟩, FsEntry.file 1), (⟨true, ["d"]⟩, FsEntry.dir),
       (⟨true, ["s", "f.bak.dbdm"]⟩, FsEntry.file 7)]
      ⟨true, ["d", "f"]⟩ = some (FsEntry.symlink ⟨true, ["s", "f"]⟩) :=
  (c5_lib_mutations_use_resolved_destination
    [(⟨true, ["s"]⟩, FsEntry.dir), (⟨true, ["s", "f"]⟩, FsEntry.file 1),
     (⟨true, ["d"]⟩, FsEntry.dir), (⟨true, ["d", "f"]⟩, FsEntry.file 7)]
    [(⟨true, ["d", "f"]⟩, FsEntry.symlink ⟨true, ["s", "f"]⟩),
     (⟨true, []⟩, FsEntry.dir), (⟨true, ["s"]⟩, FsEntry.dir),
     (⟨true, ["s", "f"]⟩, FsEntry.file 1), (⟨true, ["d"]⟩, FsEntry.dir),
     (⟨true, ["s", "f.bak.dbdm"]⟩, FsEntry.file 7)]
    ⟨true, ["s", "f"]⟩ ⟨true, ["d"]⟩ ⟨true, ["d", "f"]⟩ rfl).2 rfl

/-- C5 counterexample: with a file source `/s/f` and an existing directory
destination `/d`, the resolution rule yields `/d/f`, but the binary's
`replace_link` (the one `sync` executes) removes the directory `/d` and links
at `/d` itself, leaving nothing at the resolved path — so the claim that both
`Replace` and `BackupReplace` apply the destination-resolution rule fails for
the `Replace` mutation actually used. -/
theorem c5_counterexample_main_replace_skips_resolution :
    resolveLinkDestination
        [(⟨true, ["s"]⟩, FsEntry.dir), (⟨true, ["s", "f"]⟩, FsEntry.file 1),
         (⟨true, ["d"]⟩, FsEntry.dir)]
        ⟨true, ["s", "f"]⟩ ⟨true, ["d"]⟩ = Except.ok ⟨true, ["d", "f"]⟩ ∧
    (⟨true, ["d", "f"]⟩ : FPath) ≠ ⟨true, ["d"]⟩ ∧
    mainReplaceLink
        [(⟨true, ["s"]⟩, FsEntry.dir), (⟨true, ["s", "f"]⟩, FsEntry.file 1),
         (⟨true, ["d"]⟩, FsEntry.dir)]
        ⟨true, ["s", "f"]⟩ ⟨true, ["d"]⟩ =
      Except.ok [(⟨true, ["d"]⟩, FsEntry.symlink ⟨true, ["s", "f"]⟩),
                 (⟨true, ["s"]⟩, FsEntry.dir), (⟨true, ["s", "f"]⟩, FsEntry.file 1)] ∧
    lookupFs [(⟨true, ["d"]⟩, FsEntry.symlink ⟨true, ["s", "f"]⟩),
              (⟨true, ["s"]⟩, FsEntry.dir), (⟨true, ["s", "f"]⟩, FsEntry.file 1)]
      ⟨true, ["d", "f"]⟩ = none :=
  ⟨rfl, by decide, rfl, rfl⟩

/-- C7: the decision table of `resolve_link_destination` — error for directory
source over an existing regular file, `to` for directory source otherwise,
`to/<basename(from)>` for a file source into an existing directory, and `to`
in every remaining case. -/
theorem c7_resolve_destination_cases (fs : Fs) (fromP toP : FPath) :
    (statFs fs fromP = some FsEntry.dir →
      (∀ n, lookupFs fs toP = some (FsEntry.file n) →
        resolveLinkDestination fs fromP toP =
          Except.error ("destination is file for directory source")) ∧
      ((lookupFs fs toP = some FsEntry.dir ∨ lookupFs fs toP = none) →
        resolveLinkDestination fs fromP toP = Except.ok toP) ∧
      (∀ t, lookupFs fs toP = some (FsEntry.symlink t) →
        resolveLinkDestination fs fromP toP = Except.ok toP)) ∧
    (∀ sz, statFs fs fromP = some (FsEntry.file sz) →
      (∀ name, lookupFs fs toP = some FsEntry.dir → fromP.fileName = some name →
        resolveLinkDestination fs fromP toP = Except.ok (toP.push name)) ∧
      ((∀ e, lookupFs fs toP = some e → e ≠ FsEntry.dir) →
        resolveLinkDestination fs fromP toP = Except.ok toP)) := by
  refine ⟨fun hd => ⟨?_, ?_, ?_⟩, fun sz hf => ⟨?_, ?_⟩⟩
  · intro n ht
    simp [resolveLinkDestination, hd, ht, isFileEntry]
  · rintro (ht | ht) <;> simp [resolveLinkDestination, hd, ht, isFileEntry]
  · intro t ht
    simp [resolveLinkDestination, hd, ht, isFileEntry]
  · intro name ht hn
    simp [resolveLinkDestination, hf, ht, hn]
  · intro hne
    cases ht : lookupFs fs toP with
    | none => simp [resolveLinkDestination, hf, ht]
    | some e =>
      cases e with
      | file n => simp [resolveLinkDestination, hf, ht]
      | dir => exact absurd rfl (hne FsEntry.dir ht)
      | symlink t => simp [resolveLinkDestination, hf, ht]

/-- Witness for C7: the directory-source-over-file error case and the
file-source-into-directory case at concrete inputs. -/
theorem c7_resolve_destination_cases_witness :
    resolveLinkDestination
        [(⟨true, ["s"]⟩, FsEntry.dir), (⟨true, ["t"]⟩, FsEntry.file 2)]
        ⟨true, ["s"]⟩ ⟨true, ["t"]⟩ =
      Except.error ("destination is file for directory source") ∧
    resolveLinkDestination
        [(⟨true, ["s", "f"]⟩, FsEntry.file 1), (⟨true, ["t"]⟩, FsEntry.dir)]
        ⟨true, ["s", "f"]⟩ ⟨true, ["t"]⟩ =
      Except.ok ((⟨true, ["t"]⟩ : FPath).push ("f")) :=
  ⟨((c7_resolve_destination_cases
      [(⟨true, ["s"]⟩, FsEntry.dir), (⟨true, ["t"]⟩, FsEntry.file 2)]
      ⟨true, ["s"]⟩ ⟨true, ["t"]⟩).1 rfl).1 2 rfl,
   (((c7_resolve_destination_cases
      [(⟨true, ["s", "f"]⟩, FsEntry.file 1), (⟨true, ["t"]⟩, FsEntry.dir)]
      ⟨true, ["s", "f"]⟩ ⟨true, ["t"]⟩).2 1 rfl).1 ("f") rfl rfl)⟩

/-- C3: whenever the conflict-resolution phase completes — every pending item
has received a decision from `prompt_action` — no item of the resolved plan
still holds `Pending`, for every plan the classifier builds and every input the
prompt collaborator consumes. -/
theorem c3_no_pending_after_resolution (fs : Fs) (canon : FPath → Option FPath)
    (force : Bool) (links : List Link) (stdin stdin' : List String)
    (plan' : List PlanItem)
    (h : resolveConflicts (buildPlan fs canon force links).1
        (buildPlan fs canon force links).2 stdin = some (plan', stdin')) :
    ∀ it ∈ plan', it.action ≠ SyncAction.pendingAct := by
  apply resolveConflicts_no_pending (buildPlan fs canon force links).2
    (buildPlan fs canon force links).1 stdin stdin' plan' _ h
  intro j it hj hp
  exact buildPlanGo_pending_mem fs canon force links [] []
    (by intro j2 it2 hj2 hp2; simp at hj2) j it hj hp

/-- Witness for C3: one conflicting link, resolved through an invalid line and
then `r`; the resulting item is `Replace`, not `Pending`. -/
theorem c3_no_pending_after_resolution_witness :
    (⟨⟨true, ["src"]⟩, ⟨true, ["dst"]⟩, SyncAction.replace, none⟩ : PlanItem).action ≠
      SyncAction.pendingAct :=
  c3_no_pending_after_resolution
    [(⟨true, ["src"]⟩, FsEntry.file 1), (⟨true, ["dst"]⟩, FsEntry.file 3)]
    (fun _ => none) false [⟨⟨true, ["src"]⟩, ⟨true, ["dst"]⟩⟩]
    ["x", "r", "y"] ["y"]
    [⟨⟨true, ["src"]⟩, ⟨true, ["dst"]⟩, SyncAction.replace, none⟩]
    (by decide)
    ⟨⟨true, ["src"]⟩, ⟨true, ["dst"]⟩, SyncAction.replace, none⟩
    (by simp)

/-- C6: `unique_backup_path` returns the first name of the sequence
`X.bak.dbdm`, `X.bak.dbdm.1`, `X.bak.dbdm.2`, … (under the backup directory)
that does not yet exist: every earlier candidate exists and the returned one
does not. -/
theorem c6_unique_backup_first_free (fs : Fs) (dir : FPath) (name : String) :
    ∃ k, uniqueBackupPath fs dir name = bakCandidate dir (name ++ ".bak.dbdm") k ∧
      existsFs fs (bakCandidate dir (name ++ ".bak.dbdm") k) = false ∧
      ∀ j, j < k → existsFs fs (bakCandidate dir (name ++ ".bak.dbdm") j) = true := by
  obtain ⟨m, hm, hfree⟩ := exists_free_bakCandidate fs dir (name ++ ".bak.dbdm")
  obtain ⟨k, hgo, hf, hall⟩ := uniqueBackupGo_first_free fs dir (name ++ ".bak.dbdm")
    (fs.length + 1) 0 ⟨m, hm, by simpa using hfree⟩
  have h0 : bakCandidate dir (name ++ ".bak.dbdm") 0 = dir.push (name ++ ".bak.dbdm") := by
    simp [bakCandidate]
  refine ⟨k, ?_, by simpa using hf, by intro j hj; simpa using hall j hj⟩
  calc uniqueBackupPath fs dir name
      = uniqueBackupGo fs dir (name ++ ".bak.dbdm") 1 (fs.length + 1)
          (dir.push (name ++ ".bak.dbdm")) := rfl
    _ = bakCandidate dir (name ++ ".bak.dbdm") (0 + k) := by rw [← h0]; exact hgo
    _ = bakCandidate dir (name ++ ".bak.dbdm") k := by rw [Nat.zero_add]

/-- C10: items still `Pending` at execution time cause no mutation and no
error and are omitted from the executed outcome — the executor's result equals
the result on the plan with `Pending` items dropped, and the outcome list
(whose report sections cover the four non-`Pending` actions) never contains a
`Pending` item. -/
theorem c10_pending_items_skipped_by_executor (fs : Fs) (plan : List PlanItem) :
    executePlan fs plan = executePlan fs (plan.filter (fun it => !(isPendingItem it))) ∧
    ((executePlan fs plan).executed.all (fun it => !(isPendingItem it))) = true := by
  constructor
  · exact foldl_executeItem_filter plan ⟨fs, [], []⟩
  · rw [List.all_eq_true]
    intro it hmem
    have h := foldl_executeItem_no_pending plan ⟨fs, [], []⟩
      (by intro it2 h2; simp at h2) it hmem
    simpa [isPendingItem] using h

end Dbdm
